import Mathlib

/-!
Verification of the adaptive document-chunking and per-resource
namespace-isolation core of the LLM-RAG-AGENTS repository.

The embedding follows
`src/RAG/traditional-rag/pgvector-rag-app/tools/chunking_tools.py`
(`TextChunkingTool`) and
`src/RAG/traditional-rag/pgvector-rag-app/vector_service.py`
(`VectorService`).  Text is represented as `List Char`; document metadata
as an association list from string keys to metadata values.  The
third-party text splitters (`RecursiveCharacterTextSplitter`,
`CharacterTextSplitter`) and the vector-store backend are not part of the
repository; where their behaviour decides a claim they are modelled from
the specification, and each such definition says so in its doc comment.
-/

/-- Metadata values stored in a document's metadata mapping (the Python
code stores strings, integers and booleans under string keys). -/
inductive MetaVal where
  | str (s : String)
  | nat (n : Nat)
  | bool (b : Bool)
deriving DecidableEq, Repr

/-- A langchain `Document`: extracted text plus a metadata mapping.
Content is a list of characters; metadata an association list. -/
structure Document where
  page_content : List Char
  metadata : List (String × MetaVal)
deriving DecidableEq, Repr

/-- `TextChunkingTool.__init__`: the tool carries the configured chunk
size and chunk overlap (chunking_tools.py lines 12-21). -/
structure TextChunkingTool where
  chunk_size : Nat
  chunk_overlap : Nat
deriving DecidableEq, Repr

/-- Does `needle` occur at the very start of `haystack`? -/
def leadsWith : List Char → List Char → Bool
  | [], _ => true
  | _ :: _, [] => false
  | a :: as, b :: bs => a == b && leadsWith as bs

/-- Does `needle` occur as a contiguous run anywhere in `haystack`? -/
def containsSub (needle : List Char) : List Char → Bool
  | [] => needle.isEmpty
  | c :: rest => leadsWith needle (c :: rest) || containsSub needle rest

/-- Fuel-indexed worker for `splitOnSep`: scan left to right, cutting at
each leftmost occurrence of the separator, which is removed.  The fuel is
an upper bound on the text length, so the fuel-out branch is unreachable
in the wrapper below. -/
def splitGo (sep : List Char) : Nat → List Char → List (List Char)
  | 0, t => [t]
  | _ + 1, [] => [[]]
  | n + 1, c :: rest =>
    if leadsWith sep (c :: rest) then
      [] :: splitGo sep n (rest.drop (sep.length - 1))
    else
      match splitGo sep n rest with
      | [] => [[c]]
      | p :: ps => (c :: p) :: ps

/-- Modelled from the spec: splitting a text on every (leftmost-first)
occurrence of a non-empty separator, as the missing langchain splitters
do; the separator is dropped from the output pieces. -/
def splitOnSep (sep : List Char) (text : List Char) : List (List Char) :=
  if sep = [] then [text] else splitGo sep text.length text

/-- Modelled from the spec: the recursive/hierarchical splitting strategy
of the missing `RecursiveCharacterTextSplitter` — "attempt to split on
the coarsest separator in an ordered list ...; descend to the next
separator only where the coarser split still produces a unit exceeding
C"; a unit that no separator can divide is emitted whole; the empty
separator cuts into single characters; empty fragments are dropped. -/
def recursiveSplit (C : Nat) : List (List Char) → List Char → List (List Char)
  | [], text => [text]
  | sep :: rest, text =>
    if text.length ≤ C then [text]
    else if sep = [] then text.map (fun c => [c])
    else (((splitOnSep sep text).filter (fun p => !p.isEmpty)).map
      (recursiveSplit C rest)).flatten

/-- Modelled from the spec: the paragraph-oriented splitter of the
missing `CharacterTextSplitter(separator="\n\n")` — split the text at
blank lines, keeping each paragraph whole and dropping empty fragments
(spec section 4.1 and the two-paragraph scenario of section 8). -/
def paragraphSplit (text : List Char) : List (List Char) :=
  (splitOnSep "\n\n".data text).filter (fun p => !p.isEmpty)

/-- The language-specific separator table of `TextChunkingTool.__init__`
(chunking_tools.py lines 24-33), written out entry by entry as in the
source. -/
def language_separators : List (String × List (List Char)) :=
  [("english", ["\n\n".data, "\n".data, ". ".data, "! ".data, "? ".data, "; ".data, ", ".data, " ".data, "".data]),
   ("spanish", ["\n\n".data, "\n".data, ". ".data, "! ".data, "? ".data, "; ".data, ", ".data, " ".data, "".data]),
   ("french", ["\n\n".data, "\n".data, ". ".data, "! ".data, "? ".data, "; ".data, ", ".data, " ".data, "".data]),
   ("german", ["\n\n".data, "\n".data, ". ".data, "! ".data, "? ".data, "; ".data, ", ".data, " ".data, "".data]),
   ("portuguese", ["\n\n".data, "\n".data, ". ".data, "! ".data, "? ".data, "; ".data, ", ".data, " ".data, "".data]),
   ("italian", ["\n\n".data, "\n".data, ". ".data, "! ".data, "? ".data, "; ".data, ", ".data, " ".data, "".data]),
   ("bosnian", ["\n\n".data, "\n".data, ". ".data, "! ".data, "? ".data, "; ".data, ", ".data, " ".data, "".data]),
   ("default", ["\n\n".data, "\n".data, ". ".data, "! ".data, "? ".data, "; ".data, ", ".data, " ".data, "".data])]

/-- The separator list `language_separators["default"]`, with which the
tool's `recursive_splitter` is built (chunking_tools.py lines 35-41). -/
def defaultSeparators : List (List Char) :=
  ["\n\n".data, "\n".data, ". ".data, "! ".data, "? ".data, "; ".data, ", ".data, " ".data, "".data]

/-- Separator selection of `chunk_documents` (chunking_tools.py lines
64-80): a truthy detected language that is a key of the table selects the
table's row, otherwise the default splitter's separators are used.
`none` models Python `None`; the empty string is falsy in Python. -/
def chunkSeps (lang : Option String) : List (List Char) :=
  match lang with
  | none => defaultSeparators
  | some l =>
    if l = "" then defaultSeparators
    else
      match List.lookup l language_separators with
      | some seps => seps
      | none => defaultSeparators

/-- Python `detected_language or "unknown"`: falsy values (None, "")
become the explicit marker "unknown". -/
def langOrUnknown (lang : Option String) : String :=
  match lang with
  | none => "unknown"
  | some l => if l = "" then "unknown" else l

/-- Python `dict.update`: the given key-value pairs override existing
entries of the metadata mapping; lookups find the new values first. -/
def updateMeta (m kvs : List (String × MetaVal)) : List (String × MetaVal) :=
  kvs ++ m.filter (fun p => !(kvs.any (fun q => q.1 == p.1)))

/-- The metadata written into every chunk by `chunk_documents` and
`chunk_by_paragraphs` (chunking_tools.py lines 101-113 and 185-197). -/
def chunkMeta (tool : TextChunkingTool) (method : String) (lang : Option String)
    (i : Nat) (content : List Char) : List (String × MetaVal) :=
  [("chunk_index", MetaVal.nat i),
   ("chunk_size", MetaVal.nat content.length),
   ("chunking_method", MetaVal.str method),
   ("original_chunk_size", MetaVal.nat tool.chunk_size),
   ("chunk_overlap", MetaVal.nat tool.chunk_overlap),
   ("detected_language", MetaVal.str (langOrUnknown lang)),
   ("language_aware_chunking", MetaVal.bool lang.isSome)]

/-- The `for i, chunk in enumerate(chunked_docs)` metadata loop: update
each chunk's metadata with its batch-wide index and the chunking
parameters, counting from `i₀`. -/
def withChunkMetaFrom (tool : TextChunkingTool) (method : String)
    (lang : Option String) : Nat → List Document → List Document
  | _, [] => []
  | i, c :: cs =>
    { c with metadata := updateMeta c.metadata (chunkMeta tool method lang i c.page_content) }
      :: withChunkMetaFrom tool method lang (i + 1) cs

/-- Modelled from the spec: the missing langchain `split_documents` —
split each document's text and wrap every piece as a document carrying a
copy of the source document's metadata. -/
def split_documents (splitText : List Char → List (List Char))
    (docs : List Document) : List Document :=
  (docs.map (fun d => (splitText d.page_content).map
    (fun t => { page_content := t, metadata := d.metadata }))).flatten

/-- `TextChunkingTool.chunk_documents` (chunking_tools.py lines 43-115):
recursive character splitting with the selected separators, then the
metadata loop over the whole batch. -/
def chunk_documents (tool : TextChunkingTool) (docs : List Document)
    (lang : Option String) : List Document :=
  withChunkMetaFrom tool "recursive_character" lang 0
    (split_documents (recursiveSplit tool.chunk_size (chunkSeps lang)) docs)

/-- `TextChunkingTool.chunk_by_paragraphs` (chunking_tools.py lines
123-199): both branches construct a splitter with separator `"\n\n"`,
then the metadata loop over the whole batch. -/
def chunk_by_paragraphs (tool : TextChunkingTool) (docs : List Document)
    (lang : Option String) : List Document :=
  withChunkMetaFrom tool "paragraph" lang 0
    (split_documents paragraphSplit docs)

/-- The try/except of `chunk_documents` (chunking_tools.py lines 59-121),
with the outcome of the underlying splitting made explicit: a successful
split gets the metadata loop; an exception is wrapped in a `ValueError`
whose message carries the underlying cause. -/
def chunk_documents_run (tool : TextChunkingTool) (lang : Option String)
    (splitResult : Except String (List Document)) : Except String (List Document) :=
  match splitResult with
  | Except.ok chunked =>
      Except.ok (withChunkMetaFrom tool "recursive_character" lang 0 chunked)
  | Except.error e =>
      Except.error ("Failed to chunk documents by recursive character splitting: " ++ e)

/-- The try/except of `chunk_by_paragraphs` (chunking_tools.py lines
135-203), with the outcome of the underlying splitting made explicit. -/
def chunk_by_paragraphs_run (tool : TextChunkingTool) (lang : Option String)
    (splitResult : Except String (List Document)) : Except String (List Document) :=
  match splitResult with
  | Except.ok chunked =>
      Except.ok (withChunkMetaFrom tool "paragraph" lang 0 chunked)
  | Except.error e =>
      Except.error ("Failed to chunk documents by paragraphs: " ++ e)

/-- `chunk_documents` in its `Except` form: the modelled splitter is
total, so the split step always succeeds. -/
def chunk_documentsE (tool : TextChunkingTool) (docs : List Document)
    (lang : Option String) : Except String (List Document) :=
  chunk_documents_run tool lang
    (Except.ok (split_documents (recursiveSplit tool.chunk_size (chunkSeps lang)) docs))

/-- `TextChunkingTool.adaptive_chunk` (chunking_tools.py lines 205-253):
dispatch on the content type string exactly as the source's if/elif
chain does.  Note the `"csv"` arm calls `chunk_documents` although its
log line announces paragraph chunking. -/
def adaptive_chunk (tool : TextChunkingTool) (docs : List Document)
    (content_type : String) (lang : Option String) : List Document :=
  if content_type = "pdf" then chunk_by_paragraphs tool docs lang
  else if content_type = "docx" then chunk_by_paragraphs tool docs lang
  else if content_type = "excel" then chunk_by_paragraphs tool docs lang
  else if content_type = "text" then chunk_documents tool docs lang
  else if content_type = "csv" then chunk_documents tool docs lang
  else chunk_documents tool docs lang

/-- The character-level effect of `resource_id_str.replace('-', '_')` in
`get_collection_name`: a hyphen becomes an underscore, all else stays. -/
def replChar (c : Char) : Char := if c = '-' then '_' else c

/-- `VectorService.get_collection_name` (vector_service.py lines 37-52):
take the string form of the resource UUID, replace every hyphen with an
underscore, and wrap it in the fixed prefix and suffix. -/
def get_collection_name (resource_id : List Char) : List Char :=
  "resource_".data ++ resource_id.map replChar ++ "_documents".data

/-- Is `c` a lowercase hexadecimal digit? -/
def isLowerHexDigit (c : Char) : Bool :=
  ('0' ≤ c && c ≤ '9') || ('a' ≤ c && c ≤ 'f')

/-- The character allowed at position `i` of a canonical UUID string:
hyphens exactly at positions 8, 13, 18 and 23, lowercase hex digits
elsewhere. -/
def uuidCharOk (i : Nat) (c : Char) : Bool :=
  if i = 8 ∨ i = 13 ∨ i = 18 ∨ i = 23 then c == '-' else isLowerHexDigit c

/-- The canonical string form of a UUID (what Python's `str(uuid)`
yields): 36 characters of hyphenated lowercase hex groups. -/
def isCanonicalUUID (s : List Char) : Bool :=
  (s.length == 36) && (List.range 36).all (fun i => uuidCharOk i (s.getD i ' '))

/-- Modelled from the spec: the missing backend call
`engine.init_vectorstore_table` — the backend enforces uniqueness, so
initializing a table that already exists fails with a DuplicateTable /
"already exists" error, and otherwise the table is created. -/
def init_vectorstore_table (tables : List String) (name : String) :
    Except String (List String) :=
  if name ∈ tables then
    Except.error ("DuplicateTable: relation " ++ (name ++ " already exists"))
  else Except.ok (name :: tables)

/-- The error-substring heuristic of `_ensure_table_exists`
(vector_service.py line 164): `"already exists" in str(table_error) or
"DuplicateTable" in str(table_error)`. -/
def isDuplicateErr (e : String) : Bool :=
  containsSub "already exists".data e.data || containsSub "DuplicateTable".data e.data

/-- The inner try/except of `_ensure_table_exists` (vector_service.py
lines 154-172): a DuplicateTable / already-exists failure is swallowed
(the existing tables stand), any other failure is re-raised. -/
def handle_table_init (tables : List String)
    (initResult : Except String (List String)) : Except String (List String) :=
  match initResult with
  | Except.ok ts => Except.ok ts
  | Except.error te => if isDuplicateErr te then Except.ok tables else Except.error te

/-- The outer try/except of `_ensure_table_exists` (vector_service.py
lines 148-178) over an arbitrary initialization outcome: errors
surviving the inner handler are wrapped in the fatal RuntimeError
message. -/
def ensure_table_exists_core (tables : List String)
    (initResult : Except String (List String)) : Except String (List String) :=
  match handle_table_init tables initResult with
  | Except.ok ts => Except.ok ts
  | Except.error e => Except.error ("Failed to ensure table exists: " ++ e)

/-- `VectorService._ensure_table_exists` (vector_service.py lines
133-178) against the modelled backend: the state is the set of existing
tables. -/
def ensure_table_exists (tables : List String) (name : String) :
    Except String (List String) :=
  ensure_table_exists_core tables (init_vectorstore_table tables name)

/-- Every row of the language-separator table equals the default
separator list (all eight entries of the source are identical). -/
theorem table_all_default :
    ∀ p ∈ language_separators, p.2 = defaultSeparators := by decide

/-- A successful association-list lookup returns an element of the
list. -/
theorem lookup_mem {α β : Type} [BEq α] [LawfulBEq α] :
    ∀ (l : List (α × β)) (a : α) (b : β), List.lookup a l = some b → (a, b) ∈ l := by
  intro l
  induction l with
  | nil => intro a b h; simp [List.lookup] at h
  | cons p ps ih =>
    intro a b h
    obtain ⟨k, v⟩ := p
    rw [List.lookup] at h
    cases hc : a == k with
    | true =>
      rw [hc] at h
      cases h
      have hk : a = k := eq_of_beq hc
      subst hk
      exact List.mem_cons_self _ _
    | false =>
      rw [hc] at h
      exact List.mem_cons_of_mem _ (ih a b h)

/-- Whatever the detected language, `chunk_documents` splits with the
default separator list. -/
theorem chunkSeps_eq_default : ∀ lang, chunkSeps lang = defaultSeparators := by
  intro lang
  match lang with
  | none => rfl
  | some l =>
    simp only [chunkSeps]
    by_cases hl : l = ""
    · simp [hl]
    · rw [if_neg hl]
      cases hx : List.lookup l language_separators with
      | none => rfl
      | some seps => exact table_all_default _ (lookup_mem _ _ _ hx)

/-- A text already within the size bound is returned whole, with no
further splitting. -/
theorem recursiveSplit_of_le (C : Nat) (seps : List (List Char)) (text : List Char)
    (h : text.length ≤ C) : recursiveSplit C seps text = [text] := by
  cases seps with
  | nil => rfl
  | cons s rest => simp [recursiveSplit, h]

/-- As long as the separator list contains the empty separator (the
hard character-level cut), every piece produced by the recursive
splitter is within the size bound. -/
theorem recursiveSplit_le (C : Nat) (hC : 1 ≤ C) :
    ∀ (seps : List (List Char)), ([] : List Char) ∈ seps →
      ∀ (text : List Char), ∀ p ∈ recursiveSplit C seps text, p.length ≤ C := by
  intro seps
  induction seps with
  | nil => intro h; exact absurd h (List.not_mem_nil _)
  | cons s rest ih =>
    intro hmem text p hp
    by_cases hlen : text.length ≤ C
    · rw [recursiveSplit_of_le C _ _ hlen] at hp
      rw [List.mem_singleton.1 hp]
      exact hlen
    · simp only [recursiveSplit, if_neg hlen] at hp
      by_cases hs : s = []
      · rw [if_pos hs] at hp
        obtain ⟨c, _, rfl⟩ := List.mem_map.1 hp
        simpa using hC
      · rw [if_neg hs] at hp
        obtain ⟨l2, hl2, hpl⟩ := List.mem_flatten.1 hp
        obtain ⟨piece, _, rfl⟩ := List.mem_map.1 hl2
        have hrest : ([] : List Char) ∈ rest := by
          cases (List.mem_cons.1 hmem) with
          | inl he => exact absurd he.symm hs
          | inr ht => exact ht
        exact ih hrest piece p hpl

/-- The metadata loop changes no chunk's content. -/
theorem withChunkMetaFrom_map_content (tool : TextChunkingTool) (method : String)
    (lang : Option String) :
    ∀ (ds : List Document) (n : Nat),
      (withChunkMetaFrom tool method lang n ds).map Document.page_content
        = ds.map Document.page_content := by
  intro ds
  induction ds with
  | nil => intro n; rfl
  | cons d rest ih => intro n; simp [withChunkMetaFrom, ih]

/-- Every chunk leaving the metadata loop has the content of a chunk
that entered it. -/
theorem mem_withChunkMetaFrom {tool : TextChunkingTool} {method : String}
    {lang : Option String} :
    ∀ {ds : List Document} {n : Nat} {c : Document},
      c ∈ withChunkMetaFrom tool method lang n ds →
      ∃ d ∈ ds, c.page_content = d.page_content := by
  intro ds
  induction ds with
  | nil => intro n c h; exact absurd h (List.not_mem_nil _)
  | cons d rest ih =>
    intro n c h
    rw [withChunkMetaFrom] at h
    cases (List.mem_cons.1 h) with
    | inl he => exact ⟨d, List.mem_cons_self _ _, by rw [he]⟩
    | inr ht =>
      obtain ⟨d2, hd2, he⟩ := ih ht
      exact ⟨d2, List.mem_cons_of_mem _ hd2, he⟩

/-- Every chunk produced by `split_documents` carries a piece of some
input document's text. -/
theorem mem_split_documents {f : List Char → List (List Char)}
    {docs : List Document} {d : Document}
    (h : d ∈ split_documents f docs) :
    ∃ doc ∈ docs, d.page_content ∈ f doc.page_content := by
  simp only [split_documents] at h
  obtain ⟨l2, hl2, hd⟩ := List.mem_flatten.1 h
  obtain ⟨doc, hdoc, rfl⟩ := List.mem_map.1 hl2
  obtain ⟨t, ht, rfl⟩ := List.mem_map.1 hd
  exact ⟨doc, hdoc, ht⟩

/-- Size bound for the whole `chunk_documents` pipeline. -/
theorem chunk_documents_length_le (tool : TextChunkingTool) (docs : List Document)
    (lang : Option String) (hC : 1 ≤ tool.chunk_size) :
    ∀ chunk ∈ chunk_documents tool docs lang,
      chunk.page_content.length ≤ tool.chunk_size := by
  intro chunk hc
  obtain ⟨d, hd, he⟩ := mem_withChunkMetaFrom hc
  obtain ⟨doc, _, hmem⟩ := mem_split_documents hd
  rw [he]
  refine recursiveSplit_le tool.chunk_size hC _ ?_ _ _ hmem
  rw [chunkSeps_eq_default]
  decide

/-- `split_documents` with a splitter that returns every text whole
keeps the sequence of contents unchanged. -/
theorem split_documents_map_content_of_single {f : List Char → List (List Char)} :
    ∀ {ds : List Document}, (∀ c ∈ ds, f c.page_content = [c.page_content]) →
      (split_documents f ds).map Document.page_content = ds.map Document.page_content := by
  intro ds
  induction ds with
  | nil => intro _; rfl
  | cons d rest ih =>
    intro h
    have hd := h d (List.mem_cons_self _ _)
    have hrest := ih (fun c hc => h c (List.mem_cons_of_mem _ hc))
    simp only [split_documents, List.map_cons, List.flatten_cons, List.map_append] at *
    rw [hd]
    simp [hrest]

/-- A text starts with itself, whatever follows. -/
theorem leadsWith_append_self : ∀ (n t : List Char), leadsWith n (n ++ t) = true := by
  intro n
  induction n with
  | nil => intro t; rfl
  | cons c cs ih => intro t; simp [leadsWith, ih]

/-- A text contains any of its own trailing runs. -/
theorem containsSub_append_self : ∀ (pre n : List Char), containsSub n (pre ++ n) = true := by
  intro pre n
  induction pre with
  | nil =>
    cases n with
    | nil => rfl
    | cons c cs =>
      show containsSub (c :: cs) (c :: cs) = true
      rw [containsSub]
      have h := leadsWith_append_self (c :: cs) []
      rw [List.append_nil] at h
      simp [h]
  | cons c cs ih =>
    show containsSub n (c :: (cs ++ n)) = true
    rw [containsSub]
    simp [ih]

/-- A text free of the separator is returned whole by the scanning
splitter. -/
theorem splitGo_no_sep (sep : List Char) :
    ∀ (n : Nat) (t : List Char), t.length ≤ n → containsSub sep t = false →
      splitGo sep n t = [t] := by
  intro n
  induction n with
  | zero =>
    intro t ht _
    rfl
  | succ m ih =>
    intro t ht hc
    cases t with
    | nil => rfl
    | cons c rest =>
      rw [containsSub] at hc
      have h1 : leadsWith sep (c :: rest) = false := by
        cases hx : leadsWith sep (c :: rest) with
        | false => rfl
        | true => rw [hx] at hc; simp at hc
      have h2 : containsSub sep rest = false := by
        cases hx : containsSub sep rest with
        | false => rfl
        | true => rw [hx] at hc; simp at hc
      have hr : rest.length ≤ m := by
        simp only [List.length_cons] at ht
        omega
      rw [splitGo, if_neg (by rw [h1]; exact Bool.false_ne_true)]
      rw [ih rest hr h2]

/-- `leadsWith` for a two-character separator inspects exactly the first
two characters. -/
theorem leadsWith_two (d e c x : Char) (xs : List Char) :
    leadsWith [d, e] (c :: x :: xs) = ((d == c) && (e == x)) := by
  simp [leadsWith]

/-- Scanning a text of the form `p1 ++ sep ++ p2`, where the
two-character separator occurs nowhere in `p1` (not even straddling into
the separator) nor in `p2`, cuts exactly at the separator. -/
theorem splitGo_split_at_sep (d : Char) :
    ∀ (p1 : List Char) (n : Nat) (p2 : List Char),
      (p1 ++ d :: d :: p2).length ≤ n →
      containsSub [d, d] (p1 ++ [d]) = false →
      containsSub [d, d] p2 = false →
      splitGo [d, d] n (p1 ++ d :: d :: p2) = [p1, p2] := by
  intro p1
  induction p1 with
  | nil =>
    intro n p2 hlen h1 h2
    cases n with
    | zero => simp at hlen
    | succ m =>
      show splitGo [d, d] (m + 1) (d :: d :: p2) = [[], p2]
      rw [splitGo, if_pos (by simp [leadsWith])]
      have hp2 : p2.length ≤ m := by
        simp only [List.nil_append, List.length_cons] at hlen
        omega
      show [] :: splitGo [d, d] m ((d :: p2).drop 1) = [[], p2]
      rw [List.drop_one, List.tail_cons]
      rw [splitGo_no_sep [d, d] m p2 hp2 h2]
  | cons c p1' ih =>
    intro n p2 hlen h1 h2
    cases n with
    | zero => simp at hlen
    | succ m =>
      rw [show (c :: p1') ++ [d] = c :: (p1' ++ [d]) from rfl, containsSub] at h1
      have h1a : leadsWith [d, d] (c :: (p1' ++ [d])) = false := by
        cases hx : leadsWith [d, d] (c :: (p1' ++ [d])) with
        | false => rfl
        | true => rw [hx] at h1; simp at h1
      have h1b : containsSub [d, d] (p1' ++ [d]) = false := by
        cases hx : containsSub [d, d] (p1' ++ [d]) with
        | false => rfl
        | true => rw [hx] at h1; simp at h1
      have hhead : leadsWith [d, d] (c :: (p1' ++ d :: d :: p2)) = false := by
        cases p1' with
        | nil =>
          rw [List.nil_append] at h1a ⊢
          rw [leadsWith_two] at h1a ⊢
          exact h1a
        | cons e p1'' =>
          rw [List.cons_append] at h1a ⊢
          rw [leadsWith_two] at h1a ⊢
          exact h1a
      have hlen' : (p1' ++ d :: d :: p2).length ≤ m := by
        simp only [List.cons_append, List.length_cons] at hlen
        simp only [List.length_append, List.length_cons]
        simp only [List.length_append, List.length_cons] at hlen
        omega
      rw [show (c :: p1') ++ d :: d :: p2 = c :: (p1' ++ d :: d :: p2) from rfl]
      rw [splitGo, if_neg (by rw [hhead]; exact Bool.false_ne_true)]
      rw [ih m p2 hlen' h1b h2]

/-- Splitting `p1 ++ sep ++ p2` on the two-character separator yields
exactly the two pieces. -/
theorem splitOnSep_two_pieces (d : Char) (p1 p2 : List Char)
    (h1 : containsSub [d, d] (p1 ++ [d]) = false)
    (h2 : containsSub [d, d] p2 = false) :
    splitOnSep [d, d] (p1 ++ d :: d :: p2) = [p1, p2] := by
  rw [splitOnSep, if_neg (by simp)]
  exact splitGo_split_at_sep d p1 _ p2 le_rfl h1 h2

/-- The metadata loop preserves the number of chunks. -/
theorem withChunkMetaFrom_length (tool : TextChunkingTool) (method : String)
    (lang : Option String) :
    ∀ (ds : List Document) (n : Nat),
      (withChunkMetaFrom tool method lang n ds).length = ds.length := by
  intro ds
  induction ds with
  | nil => intro n; rfl
  | cons d rest ih => intro n; simp [withChunkMetaFrom, ih]

/-- The chunk at position `i` of the metadata loop's output is the input
chunk at position `i`, with its metadata updated at index `n + i`. -/
theorem withChunkMetaFrom_get (tool : TextChunkingTool) (method : String)
    (lang : Option String) :
    ∀ (ds : List Document) (n i : Nat)
      (h : i < (withChunkMetaFrom tool method lang n ds).length) (h2 : i < ds.length),
      (withChunkMetaFrom tool method lang n ds).get ⟨i, h⟩
        = { ds.get ⟨i, h2⟩ with
            metadata := updateMeta (ds.get ⟨i, h2⟩).metadata
              (chunkMeta tool method lang (n + i) (ds.get ⟨i, h2⟩).page_content) } := by
  intro ds
  induction ds with
  | nil => intro n i h h2; exact absurd h2 (Nat.not_lt_zero i)
  | cons d rest ih =>
    intro n i h h2
    cases i with
    | zero => simp [withChunkMetaFrom]
    | succ j =>
      have hj : j < (withChunkMetaFrom tool method lang (n + 1) rest).length := by
        simp only [withChunkMetaFrom, List.length_cons] at h
        omega
      have hj2 : j < rest.length := by simpa using h2
      have hstep : (withChunkMetaFrom tool method lang n (d :: rest)).get ⟨j + 1, h⟩
          = (withChunkMetaFrom tool method lang (n + 1) rest).get ⟨j, hj⟩ := by
        simp only [withChunkMetaFrom]
        exact List.get_cons_succ
      rw [hstep, ih (n + 1) j hj hj2]
      have harith : n + 1 + j = n + (j + 1) := by omega
      rw [harith]
      congr 1

/-- `replChar` is injective away from the underscore character. -/
theorem replChar_inj {c c' : Char} (hc : c ≠ '_') (hc' : c' ≠ '_')
    (h : replChar c = replChar c') : c = c' := by
  unfold replChar at h
  by_cases h1 : c = '-'
  · by_cases h2 : c' = '-'
    · rw [h1, h2]
    · rw [if_pos h1, if_neg h2] at h
      exact absurd h.symm hc'
  · by_cases h2 : c' = '-'
    · rw [if_neg h1, if_pos h2] at h
      exact absurd h hc
    · rw [if_neg h1, if_neg h2] at h
      exact h

/-- Hyphen replacement is injective on strings that contain no
underscore. -/
theorem map_replChar_inj :
    ∀ (a b : List Char), (∀ c ∈ a, c ≠ '_') → (∀ c ∈ b, c ≠ '_') →
      a.map replChar = b.map replChar → a = b := by
  intro a
  induction a with
  | nil =>
    intro b _ _ h
    cases b with
    | nil => rfl
    | cons c' cs' => simp at h
  | cons c cs ih =>
    intro b ha hb h
    cases b with
    | nil => simp at h
    | cons c' cs' =>
      simp only [List.map_cons, List.cons.injEq] at h
      obtain ⟨h1, h2⟩ := h
      have hc := replChar_inj (ha c (List.mem_cons_self _ _))
        (hb c' (List.mem_cons_self _ _)) h1
      rw [hc, ih cs' (fun x hx => ha x (List.mem_cons_of_mem _ hx))
        (fun x hx => hb x (List.mem_cons_of_mem _ hx)) h2]

/-- A lowercase hex digit is not an underscore. -/
theorem isLowerHexDigit_ne_underscore {c : Char} (h : isLowerHexDigit c = true) :
    c ≠ '_' := by
  intro he
  subst he
  exact absurd h (by decide)

/-- No character of a canonical UUID string is an underscore. -/
theorem canonicalUUID_no_underscore {s : List Char} (h : isCanonicalUUID s = true) :
    ∀ c ∈ s, c ≠ '_' := by
  intro c hc
  rw [isCanonicalUUID, Bool.and_eq_true] at h
  obtain ⟨hlen, hall⟩ := h
  have hlen' : s.length = 36 := by simpa using hlen
  obtain ⟨⟨i, hi⟩, hg⟩ := List.mem_iff_get.1 hc
  have hi36 : i < 36 := hlen' ▸ hi
  rw [List.all_eq_true] at hall
  have hok := hall i (List.mem_range.2 hi36)
  rw [List.getD_eq_get s ' ' hi, hg, uuidCharOk] at hok
  by_cases hp : i = 8 ∨ i = 13 ∨ i = 18 ∨ i = 23
  · rw [if_pos hp] at hok
    rw [eq_of_beq hok]
    decide
  · rw [if_neg hp] at hok
    exact isLowerHexDigit_ne_underscore hok

/-- A text contains any of its own leading runs. -/
theorem containsSub_self_append (n t : List Char) : containsSub n (n ++ t) = true := by
  cases n with
  | nil =>
    cases t with
    | nil => rfl
    | cons c r =>
      rw [List.nil_append, containsSub]
      simp [leadsWith]
  | cons c cs =>
    rw [List.cons_append, containsSub]
    have h := leadsWith_append_self (c :: cs) t
    rw [List.cons_append] at h
    simp [h]

/-- The error message of the modelled duplicate-table failure passes the
source's substring heuristic. -/
theorem dup_msg_is_duplicate (name : String) :
    isDuplicateErr ("DuplicateTable: relation " ++ (name ++ " already exists")) = true := by
  rw [isDuplicateErr]
  have hdata : ("DuplicateTable: relation " ++ (name ++ " already exists")).data
      = "DuplicateTable".data
        ++ (": relation ".data ++ (name.data ++ " already exists".data)) := by
    show "DuplicateTable: relation ".data ++ (name.data ++ " already exists".data)
        = "DuplicateTable".data ++ (": relation ".data ++ (name.data ++ " already exists".data))
    have hA : "DuplicateTable: relation ".data
        = "DuplicateTable".data ++ ": relation ".data := by decide
    rw [hA, List.append_assoc]
  rw [hdata, containsSub_self_append]
  exact Bool.or_true _

/-- C1: the namespace resolver is deterministic, and injective on canonical
UUID strings: resolving the same Resource Identifier twice yields the same
collection name, and distinct canonical UUID strings resolve to distinct
names (hyphen-to-underscore replacement is injective on strings without
underscores, and the added prefix and suffix are fixed). -/
theorem C1_resolver_deterministic_injective (r1 r2 : List Char)
    (h1 : isCanonicalUUID r1 = true) (h2 : isCanonicalUUID r2 = true) :
    get_collection_name r1 = get_collection_name r1 ∧
      (r1 ≠ r2 → get_collection_name r1 ≠ get_collection_name r2) := by
  refine ⟨rfl, ?_⟩
  intro hne heq
  apply hne
  unfold get_collection_name at heq
  have heq2 := List.append_cancel_right heq
  have heq3 := List.append_cancel_left heq2
  exact map_replChar_inj r1 r2 (canonicalUUID_no_underscore h1)
    (canonicalUUID_no_underscore h2) heq3

/-- Witness for C1 at two concrete canonical UUID strings differing in the
last character. -/
theorem C1_witness :
    isCanonicalUUID "123e4567-e89b-12d3-a456-426614174000".data = true ∧
    isCanonicalUUID "123e4567-e89b-12d3-a456-426614174001".data = true ∧
    get_collection_name "123e4567-e89b-12d3-a456-426614174000".data
      ≠ get_collection_name "123e4567-e89b-12d3-a456-426614174001".data :=
  ⟨by decide, by decide,
    (C1_resolver_deterministic_injective
      "123e4567-e89b-12d3-a456-426614174000".data
      "123e4567-e89b-12d3-a456-426614174001".data
      (by decide) (by decide)).2 (by decide)⟩

/-- C2: for every document list and valid configuration (O < C), every chunk
returned by chunk_documents has content length at most C.  The claim's
escape hatch for a single indivisible token longer than C is never needed:
the source's separator list ends with the empty separator, which cuts at
character level, so the bound holds without exception. -/
theorem C2_chunk_size_bound (tool : TextChunkingTool) (docs : List Document)
    (lang : Option String) (hO : tool.chunk_overlap < tool.chunk_size) :
    ∀ chunk ∈ chunk_documents tool docs lang,
      chunk.page_content.length ≤ tool.chunk_size :=
  chunk_documents_length_le tool docs lang (by omega)

/-- Witness for C2 at a concrete document longer than the chunk size. -/
theorem C2_witness :
    (⟨10, 2⟩ : TextChunkingTool).chunk_overlap < (⟨10, 2⟩ : TextChunkingTool).chunk_size ∧
    ∀ chunk ∈ chunk_documents ⟨10, 2⟩ [⟨"hello world, this is a test".data, []⟩] none,
      chunk.page_content.length ≤ (⟨10, 2⟩ : TextChunkingTool).chunk_size :=
  ⟨by decide,
    C2_chunk_size_bound ⟨10, 2⟩ [⟨"hello world, this is a test".data, []⟩] none (by decide)⟩

/-- C3: contrary to the claim (and to the source's own log line announcing
paragraph chunking for CSV), the csv arm of adaptive_chunk calls
chunk_documents, so csv input is chunked by the recursive character
strategy. -/
theorem C3_csv_routed_to_recursive :
    (∀ (tool : TextChunkingTool) (docs : List Document) (lang : Option String),
      adaptive_chunk tool docs "csv" lang = chunk_documents tool docs lang) ∧
    (adaptive_chunk ⟨1000, 200⟩ [⟨"a,b\nc,d".data, []⟩] "csv" none).map
        (fun c => List.lookup "chunking_method" c.metadata)
      = [some (MetaVal.str "recursive_character")] := by
  constructor
  · intro tool docs lang
    simp [adaptive_chunk]
  · decide

/-- C4: the ensure-exists operation succeeds twice in sequence for the same
collection name (the backend's already-exists error is treated as success),
while any other backend error is surfaced as the fatal initialization
error. -/
theorem C4_ensure_idempotent_and_fatal (tables : List String) (name : String) :
    (∃ t1, ensure_table_exists tables name = Except.ok t1 ∧
      ∃ t2, ensure_table_exists t1 name = Except.ok t2) ∧
    (∀ e, isDuplicateErr e = false →
      ensure_table_exists_core tables (Except.error e)
        = Except.error ("Failed to ensure table exists: " ++ e)) := by
  constructor
  · by_cases hmem : name ∈ tables
    · refine ⟨tables, ?_, tables, ?_⟩ <;>
        rw [ensure_table_exists, init_vectorstore_table, if_pos hmem,
          ensure_table_exists_core, handle_table_init,
          if_pos (dup_msg_is_duplicate name)]
    · refine ⟨name :: tables, ?_, name :: tables, ?_⟩
      · rw [ensure_table_exists, init_vectorstore_table, if_neg hmem,
          ensure_table_exists_core, handle_table_init]
      · rw [ensure_table_exists, init_vectorstore_table,
          if_pos (List.mem_cons_self name tables),
          ensure_table_exists_core, handle_table_init,
          if_pos (dup_msg_is_duplicate name)]
  · intro e he
    rw [ensure_table_exists_core, handle_table_init,
      if_neg (by rw [he]; exact Bool.false_ne_true)]

/-- Witness for C4: a fresh table name succeeds twice from the empty backend
state, and a connection failure is surfaced as fatal. -/
theorem C4_witness :
    (∃ t1, ensure_table_exists [] "resource_a_documents" = Except.ok t1 ∧
      ∃ t2, ensure_table_exists t1 "resource_a_documents" = Except.ok t2) ∧
    ensure_table_exists_core [] (Except.error "connection refused")
      = Except.error ("Failed to ensure table exists: " ++ "connection refused") :=
  ⟨(C4_ensure_idempotent_and_fatal [] "resource_a_documents").1,
    (C4_ensure_idempotent_and_fatal [] "resource_a_documents").2
      "connection refused" (by decide)⟩

/-- What the claimed chunk metadata records, for a chunk at index `i`:
batch index, resulting length, method name, configured size and overlap,
language tag or "unknown", and the language-aware flag. -/
def chunkMetaRecorded (tool : TextChunkingTool) (method : String)
    (lang : Option String) (i : Nat) (c : Document) : Prop :=
  List.lookup "chunk_index" c.metadata = some (MetaVal.nat i) ∧
  List.lookup "chunk_size" c.metadata = some (MetaVal.nat c.page_content.length) ∧
  List.lookup "chunking_method" c.metadata = some (MetaVal.str method) ∧
  List.lookup "original_chunk_size" c.metadata = some (MetaVal.nat tool.chunk_size) ∧
  List.lookup "chunk_overlap" c.metadata = some (MetaVal.nat tool.chunk_overlap) ∧
  List.lookup "detected_language" c.metadata = some (MetaVal.str (langOrUnknown lang)) ∧
  List.lookup "language_aware_chunking" c.metadata = some (MetaVal.bool lang.isSome)

/-- C5 counterexample: with two input documents of one chunk each, the
second document's sole chunk records chunk_index 1 — its position in the
returned batch — although its zero-based index within its source document
is 0, as the single-document run of the same chunk shows.  The claim as
stated (index within its source document) is therefore false. -/
theorem C5_counterexample :
    (chunk_documents ⟨10, 2⟩ [⟨"aa".data, []⟩, ⟨"bb".data, []⟩] none).map
        (fun c => (c.page_content, List.lookup "chunk_index" c.metadata))
      = [("aa".data, some (MetaVal.nat 0)), ("bb".data, some (MetaVal.nat 1))] ∧
    (chunk_documents ⟨10, 2⟩ [⟨"bb".data, []⟩] none).map
        (fun c => (c.page_content, List.lookup "chunk_index" c.metadata))
      = [("bb".data, some (MetaVal.nat 0))] := by
  constructor <;> decide

/-- C5 (amended): each chunk returned by chunk_documents or
chunk_by_paragraphs carries metadata recording its zero-based index within
the returned batch (across all source documents of the call), its
character length, the chunking method name, the configured C and O, the
language tag (or "unknown"), and the language-aware flag. -/
theorem C5_amended_metadata (tool : TextChunkingTool) (docs : List Document)
    (lang : Option String) :
    (∀ i (h : i < (chunk_documents tool docs lang).length),
      chunkMetaRecorded tool "recursive_character" lang i
        ((chunk_documents tool docs lang).get ⟨i, h⟩)) ∧
    (∀ i (h : i < (chunk_by_paragraphs tool docs lang).length),
      chunkMetaRecorded tool "paragraph" lang i
        ((chunk_by_paragraphs tool docs lang).get ⟨i, h⟩)) := by
  have key : ∀ (method : String) (ds : List Document) i
      (h : i < (withChunkMetaFrom tool method lang 0 ds).length),
      chunkMetaRecorded tool method lang i
        ((withChunkMetaFrom tool method lang 0 ds).get ⟨i, h⟩) := by
    intro method ds i h
    have h2 : i < ds.length := by
      rw [withChunkMetaFrom_length] at h
      exact h
    rw [withChunkMetaFrom_get tool method lang ds 0 i h h2, Nat.zero_add]
    exact ⟨rfl, rfl, rfl, rfl, rfl, rfl, rfl⟩
  exact ⟨fun i h => key "recursive_character" _ i h, fun i h => key "paragraph" _ i h⟩

/-- Witness for the amended C5 at a concrete one-chunk run. -/
theorem C5_amended_witness :
    0 < (chunk_documents ⟨10, 2⟩ [⟨"aa".data, []⟩] none).length ∧
    chunkMetaRecorded ⟨10, 2⟩ "recursive_character" none 0
      ((chunk_documents ⟨10, 2⟩ [⟨"aa".data, []⟩] none).get ⟨0, by decide⟩) :=
  ⟨by decide, (C5_amended_metadata ⟨10, 2⟩ [⟨"aa".data, []⟩] none).1 0 (by decide)⟩

/-- C6: when the underlying splitting operation fails, both chunking
operations return an explicit error whose message carries the underlying
cause as a substring — and no chunk list at all, so the batch is
all-or-nothing. -/
theorem C6_split_failure_surfaced (tool : TextChunkingTool) (lang : Option String)
    (e : String) :
    (chunk_documents_run tool lang (Except.error e)
        = Except.error ("Failed to chunk documents by recursive character splitting: " ++ e) ∧
      containsSub e.data
        ("Failed to chunk documents by recursive character splitting: " ++ e).data = true) ∧
    (chunk_by_paragraphs_run tool lang (Except.error e)
        = Except.error ("Failed to chunk documents by paragraphs: " ++ e) ∧
      containsSub e.data ("Failed to chunk documents by paragraphs: " ++ e).data = true) := by
  refine ⟨⟨rfl, ?_⟩, ⟨rfl, ?_⟩⟩ <;> exact containsSub_append_self _ _

/-- C7: re-chunking the chunks produced by chunk_documents with the same
configuration returns them with unchanged contents — no further
splitting, because every produced chunk is already within the size
bound. -/
theorem C7_chunking_idempotent (tool : TextChunkingTool) (docs : List Document)
    (lang : Option String) (hO : tool.chunk_overlap < tool.chunk_size) :
    (chunk_documents tool (chunk_documents tool docs lang) lang).map Document.page_content
      = (chunk_documents tool docs lang).map Document.page_content := by
  have hbound := chunk_documents_length_le tool docs lang (by omega)
  conv_lhs => rw [chunk_documents]
  rw [withChunkMetaFrom_map_content]
  exact split_documents_map_content_of_single
    (fun c hc => recursiveSplit_of_le _ _ _ (hbound c hc))

/-- Witness for C7 at a document long enough to be split. -/
theorem C7_witness :
    (⟨10, 2⟩ : TextChunkingTool).chunk_overlap < (⟨10, 2⟩ : TextChunkingTool).chunk_size ∧
    (chunk_documents ⟨10, 2⟩
        (chunk_documents ⟨10, 2⟩ [⟨"hello world. second bit".data, []⟩] none) none).map
        Document.page_content
      = (chunk_documents ⟨10, 2⟩ [⟨"hello world. second bit".data, []⟩] none).map
        Document.page_content :=
  ⟨by decide,
    C7_chunking_idempotent ⟨10, 2⟩ [⟨"hello world. second bit".data, []⟩] none (by decide)⟩

/-- C8: for content type pdf and a single document of two nonempty
paragraphs separated by a blank line (no blank line inside either
paragraph, the first not ending in a newline) with total length below C,
adaptive chunking yields exactly the two paragraphs, split at the blank
line. -/
theorem C8_pdf_two_paragraphs (tool : TextChunkingTool) (p1 p2 : List Char)
    (md : List (String × MetaVal)) (lang : Option String)
    (h1 : containsSub ['\n', '\n'] (p1 ++ ['\n']) = false)
    (h2 : containsSub ['\n', '\n'] p2 = false)
    (hn1 : p1 ≠ []) (hn2 : p2 ≠ [])
    (hlen : (p1 ++ '\n' :: '\n' :: p2).length < tool.chunk_size) :
    (adaptive_chunk tool [⟨p1 ++ '\n' :: '\n' :: p2, md⟩] "pdf" lang).map
        Document.page_content = [p1, p2] := by
  have hpdf : adaptive_chunk tool [⟨p1 ++ '\n' :: '\n' :: p2, md⟩] "pdf" lang
      = chunk_by_paragraphs tool [⟨p1 ++ '\n' :: '\n' :: p2, md⟩] lang := by
    simp [adaptive_chunk]
  rw [hpdf, chunk_by_paragraphs, withChunkMetaFrom_map_content]
  have hsplit : paragraphSplit (p1 ++ '\n' :: '\n' :: p2) = [p1, p2] := by
    rw [paragraphSplit]
    have hd : "\n\n".data = ['\n', '\n'] := rfl
    rw [hd, splitOnSep_two_pieces '\n' p1 p2 h1 h2]
    simp [List.filter_cons, hn1, hn2]
  simp [split_documents, hsplit]

/-- Witness for C8 at two concrete paragraphs. -/
theorem C8_witness :
    containsSub ['\n', '\n'] ("First paragraph.".data ++ ['\n']) = false ∧
    containsSub ['\n', '\n'] "Second paragraph.".data = false ∧
    ("First paragraph.".data ++ '\n' :: '\n' :: "Second paragraph.".data).length < 1000 ∧
    (adaptive_chunk ⟨1000, 200⟩
        [⟨"First paragraph.".data ++ '\n' :: '\n' :: "Second paragraph.".data, []⟩]
        "pdf" none).map Document.page_content
      = ["First paragraph.".data, "Second paragraph.".data] :=
  ⟨by decide, by decide, by decide,
    C8_pdf_two_paragraphs ⟨1000, 200⟩ "First paragraph.".data "Second paragraph.".data
      [] none (by decide) (by decide) (by decide) (by decide) (by decide)⟩

/-- C9: chunking the empty document sequence returns the empty chunk
sequence, and in the error-explicit form the outcome is success, not an
error. -/
theorem C9_empty_input (tool : TextChunkingTool) (lang : Option String) :
    chunk_documents tool [] lang = [] ∧
    chunk_documentsE tool [] lang = Except.ok [] :=
  ⟨rfl, rfl⟩

/-- C10: the chunk contents produced by chunk_documents do not depend on
the detected-language argument: every row of the language-separator table
equals the default separator list, so any two runs split identically and
can differ at most in the chunk metadata. -/
theorem C10_language_independent_contents (tool : TextChunkingTool)
    (docs : List Document) (l1 l2 : Option String) :
    (chunk_documents tool docs l1).map Document.page_content
      = (chunk_documents tool docs l2).map Document.page_content := by
  rw [chunk_documents, chunk_documents, withChunkMetaFrom_map_content,
    withChunkMetaFrom_map_content, chunkSeps_eq_default l1, chunkSeps_eq_default l2]
